import Mathlib

/-!
Shallow embedding of the pararius-alerts pipeline (src/src/storage.py,
src/src/scraper.py, src/src/main.py) and proofs of the specification
claims about it.

Modelling conventions:
* Python `datetime` instants are integers (`Int`); `timedelta(days=max_listings_age_days)`
  is a single integer duration `maxAge`.
* Timestamp *strings* stored in listing records are modelled by `TS`:
  `TS.valid t` stands for an ISO string that `datetime.fromisoformat`
  parses to instant `t`, `TS.invalid` for an unparseable string.
* A listing dictionary is a `Listing` structure.  Keys that the code reads
  with `.get` (absent key indistinguishable from an explicit `None`) are
  `Option` fields.  `first_seen`/`last_updated` are `Option TS`: `none`
  models an absent key (so that `listing['first_seen']` raising `KeyError`
  can be expressed), `some ts` a present string.
* Python `dict`s keyed by id are association lists with dict semantics:
  inserting an existing key replaces the value in place, a new key is
  appended (CPython insertion order).
* Raising code is embedded in `Except String`.
-/

namespace Pararius

/-- Timestamp string as stored in a record: either parses to an instant or not. -/
inductive TS where
  | valid (t : Int)
  | invalid
deriving DecidableEq, Repr

/-- A listing record (the dictionaries built in scraper.py lines 212-225 and
moved around by storage.py).  Fields read via `.get` in the source are
`Option`s; `id`, `url`, `title` are the keys every record produced by the
extractor carries and that `compare_listings` reads with raising access. -/
structure Listing where
  id : String
  url : String
  title : String
  price : Option Int
  size : Option Int
  rooms : Option Int
  location : String
  interior : String
  image_url : Option String
  agency : String
  available : Option String
  description : Option String
  first_seen : Option TS
  last_updated : Option TS
deriving DecidableEq, Repr

/-- Python dict insertion: replace in place if the key exists, else append. -/
def dictInsert (d : List (String × Listing)) (k : String) (v : Listing) :
    List (String × Listing) :=
  if d.any (fun p => p.1 = k) then
    d.map (fun p => if p.1 = k then (k, v) else p)
  else d ++ [(k, v)]

/-- The dict comprehension `{listing['id']: listing for listing in ls}`
(storage.py lines 125-126): last write wins, first-insertion order. -/
def buildById (ls : List Listing) : List (String × Listing) :=
  ls.foldl (fun d l => dictInsert d l.id l) []

/-- Key list of an association-list dict. -/
def keys (d : List (String × Listing)) : List String := d.map Prod.fst

/-- Dict lookup (`d[k]` / `k in d`), first match. -/
def getval (d : List (String × Listing)) (k : String) : Option Listing :=
  match d with
  | [] => none
  | p :: rest => if p.1 = k then some p.2 else getval rest k

/-- ListingStorage._is_listing_updated (storage.py lines 164-187): price,
availability or description differ. -/
def is_listing_updated (newL exL : Listing) : Bool :=
  if newL.price ≠ exL.price then true
  else if newL.available ≠ exL.available then true
  else if newL.description ≠ exL.description then true
  else false

/-- ListingStorage._is_listing_too_old (storage.py lines 189-205):
`datetime.now() - fromisoformat(listing.get('first_seen', now.isoformat())) > max_age`,
with parse failures caught and treated as "not too old". -/
def is_listing_too_old (now maxAge : Int) (l : Listing) : Bool :=
  match l.first_seen with
  | none => decide (now - now > maxAge)
  | some (TS.valid t) => decide (now - t > maxAge)
  | some TS.invalid => false

/-- One iteration of the `for listing_id, new_listing in new_by_id.items()`
loop of compare_listings (storage.py lines 132-148).  Returns the element
appended to `added_listings` (if any), the element appended to
`updated_listings` (if any), and the entry the key ends up holding in
`new_by_id` after the iteration.  Accessing a missing `first_seen` on the
stored record (line 142) raises `KeyError`. -/
def compareStep (exd : List (String × Listing)) (now : Int) (e : String × Listing) :
    Except String (Option Listing × Option Listing × (String × Listing)) :=
  match getval exd e.1 with
  | none => .ok (some e.2, none, e)
  | some exL =>
    if is_listing_updated e.2 exL then
      match exL.first_seen with
      | none => .error "KeyError: first_seen"
      | some fs =>
        let upd := { e.2 with first_seen := some fs,
                              last_updated := some (TS.valid now) }
        .ok (none, some upd, (e.1, upd))
    else
      .ok (none, none, (e.1, exL))

/-- Sequencing of a fallible step over a list (the loop aborts at the first
raised exception, as in Python). -/
def exceptMapM (f : α → Except String β) : List α → Except String (List β)
  | [] => .ok []
  | a :: as =>
    match f a with
    | .error e => .error e
    | .ok b =>
      match exceptMapM f as with
      | .error e => .error e
      | .ok bs => .ok (b :: bs)

/-- ListingStorage.compare_listings (storage.py lines 113-162).  Indexes both
inputs by id, classifies every fresh entry (added / updated / carried-over),
keeps stored entries absent from the fresh index unless too old, and returns
`(added_listings, updated_listings, all_current_listings)`. -/
def compare_listings (now maxAge : Int) (new_listings existing_listings : List Listing) :
    Except String (List Listing × List Listing × List Listing) :=
  let exd := buildById existing_listings
  let newd := buildById new_listings
  match exceptMapM (compareStep exd now) newd with
  | .error e => .error e
  | .ok results =>
    let added := results.filterMap (fun r => r.1)
    let updated := results.filterMap (fun r => r.2.1)
    let preserved := exd.filterMap (fun p =>
      if (getval newd p.1).isNone && !is_listing_too_old now maxAge p.2
      then some p.2 else none)
    let all_current := (results.map (fun r => r.2.2)).map Prod.snd ++ preserved
    .ok (added, updated, all_current)

/-- ListingStorage.clean_old_listings (storage.py lines 207-224): filter out
too-old records and return the kept list with the removed count. -/
def clean_old_listings (now maxAge : Int) (listings : List Listing) :
    List Listing × Nat :=
  let kept := listings.filter (fun l => !is_listing_too_old now maxAge l)
  (kept, listings.length - kept.length)

/-- The storage/merge path of main (main.py lines 95-166) with the effectful
collaborators abstracted: `configOk` is whether load_config returned a
non-empty dict, `stored` the listings on disk at start of run, `fresh` the
aggregated crawl result, `saveOk` the boolean save_listings returns for the
end-of-run write.  main first runs clean_old_listings (line 109), loads the
cleaned set, compares, saves (line 135, return value discarded), sets
`stats['success'] = True` and returns `0 if stats['success'] else 1`; an
exception raised by compare_listings is caught at line 151 and yields 1. -/
def mainRun (now maxAge : Int) (configOk : Bool) (stored fresh : List Listing)
    (saveOk : Bool) : Int × Option (List Listing × List Listing × List Listing) :=
  if !configOk then (1, none)
  else
    let cleaned := (clean_old_listings now maxAge stored).1
    match compare_listings now maxAge fresh cleaned with
    | .error _ => (1, none)
    | .ok r =>
      let _ := saveOk
      (0, some r)

/-! ### Scraper: URL building (scraper.py lines 88-135) -/

/-- Configuration surface read by _build_search_url.  JSON distinguishes an
absent `price_range.min` key (the code defaults it to `0` via
`price_range.get('min', 0)`) from an explicit `null` (which `.get` returns as
`None`), hence the double `Option`.  For `max`, `min_bedrooms` and `min_size`
the code uses `.get(key)`, which conflates absent and `null`. -/
structure ScraperConfig where
  price_min : Option (Option Nat)
  price_max : Option Nat
  min_bedrooms : Option Nat
  min_size : Option Nat
deriving DecidableEq, Repr

/-- ParariusScraper.BASE_URL (scraper.py line 28). -/
def BASE_URL : String := "https://www.pararius.com/apartments"

/-- `price_range.get('min', 0)` (scraper.py line 107). -/
def min_price_of (pm : Option (Option Nat)) : Option Nat :=
  match pm with
  | none => some 0
  | some v => v

/-- The `if/elif` price chain (scraper.py lines 110-115), with Python
truthiness: `None` and `0` are falsy. -/
def priceParamsOf (mp px : Option Nat) : List String :=
  match mp, px with
  | some mn, some mx => [s!"{mn}-{mx}"]
  | some mn, none => if mn ≠ 0 then [s!"{mn}+"] else []
  | none, some mx => if mx ≠ 0 then [s!"0-{mx}"] else []
  | none, none => []

/-- The bedrooms segment (scraper.py lines 118-120). -/
def bedroomParamsOf (pb : Option Nat) : List String :=
  match pb with
  | some b => if b ≠ 0 then [s!"{b}-bedrooms"] else []
  | none => []

/-- The size segment (scraper.py lines 123-125). -/
def sizeParamsOf (ps : Option Nat) : List String :=
  match ps with
  | some m => if m ≠ 0 then [s!"{m}-m2"] else []
  | none => []

/-- ParariusScraper._build_search_url (scraper.py lines 88-135). -/
def build_search_url (cfg : ScraperConfig) (city : String) (page : Nat) : String :=
  let url := BASE_URL ++ "/" ++ city
  let params := priceParamsOf (min_price_of cfg.price_min) cfg.price_max ++
    bedroomParamsOf cfg.min_bedrooms ++ sizeParamsOf cfg.min_size
  let url := if params ≠ [] then url ++ "/" ++ String.intercalate "/" params else url
  if page > 1 then url ++ s!"/page-{page}" else url

/-- Modelled from the spec (section 6, "Search URL construction"): the price
segment as the claim words it, with a set field meaning a present value. -/
def priceSegClaimed (pm px : Option Nat) : List String :=
  match pm, px with
  | some mn, some mx => [s!"{mn}-{mx}"]
  | some mn, none => [s!"{mn}+"]
  | none, some mx => [s!"0-{mx}"]
  | none, none => []

/-- Modelled from the spec: the bedrooms segment, emitted whenever set. -/
def bedSegClaimed (pb : Option Nat) : List String :=
  match pb with
  | some b => [s!"{b}-bedrooms"]
  | none => []

/-- Modelled from the spec: the size segment, emitted whenever set. -/
def sizeSegClaimed (ps : Option Nat) : List String :=
  match ps with
  | some m => [s!"{m}-m2"]
  | none => []

/-- Modelled from the spec (section 6): the fixed-order segment assembly the
claim describes.  Used only to compare `build_search_url` against it. -/
def search_url_claimed (cfg : ScraperConfig) (city : String) (page : Nat) : String :=
  let base := BASE_URL ++ "/" ++ city
  let params := priceSegClaimed cfg.price_min.join cfg.price_max ++
    bedSegClaimed cfg.min_bedrooms ++ sizeSegClaimed cfg.min_size
  let url := if params ≠ [] then base ++ "/" ++ String.intercalate "/" params else base
  if page > 1 then url ++ s!"/page-{page}" else url

/-- Filter values present in a config are positive (prices, bedroom and size
minima are positive numbers; `0`/`null` mean "no filter"). -/
def ScraperConfig.Positive (cfg : ScraperConfig) : Prop :=
  (∀ v, cfg.price_min = some (some v) → 0 < v) ∧
  (∀ v, cfg.price_max = some v → 0 < v) ∧
  (∀ v, cfg.min_bedrooms = some v → 0 < v) ∧
  (∀ v, cfg.min_size = some v → 0 < v)

/-! ### Scraper: field extraction (scraper.py lines 137-228) -/

/-- Python whitespace characters recognised by `str.strip` and `\s`
(ASCII range, which is what the scraped markup contains). -/
def isPySpace (c : Char) : Bool :=
  c = ' ' ∨ c = '\t' ∨ c = '\n' ∨ c = '\x0d' ∨ c = '\x0b' ∨ c = '\x0c'

/-- Python `str.strip()`. -/
def pyStrip (s : String) : String :=
  String.mk (((s.toList.dropWhile isPySpace).reverse.dropWhile isPySpace).reverse)

/-- Substring test (`needle in hay` on Python strings). -/
def strContains (hay needle : String) : Bool :=
  decide (needle.toList <:+: hay.toList)

/-- Digits of a decimal token as a number. -/
def natOfDigits (ds : List Char) : Int :=
  Int.ofNat (ds.foldl (fun n c => n * 10 + (c.toNat - '0'.toNat)) 0)

/-- Search `re.search(r'€\s*([\d,.]+)', text)`: the token of digits, commas
and dots after the first `€` (skipping whitespace) that is non-empty.  The
pattern needs no backtracking: after the greedy runs the next character can
satisfy no earlier pattern element. -/
def findPriceToken : List Char → Option (List Char)
  | [] => none
  | c :: rest =>
    if c = '€' then
      let tok := (rest.dropWhile isPySpace).takeWhile
        (fun x => x.isDigit ∨ x = ',' ∨ x = '.')
      if tok.isEmpty then findPriceToken rest else some tok
    else findPriceToken rest

/-- Search `re.search(r'(\d+)\s*LIT', text)` for a literal `LIT`: first digit
run followed (after optional whitespace) by the literal.  A failing match at
the start of a digit run fails at every position inside the run, so scanning
character by character returns exactly `re.search`'s first capture. -/
def searchNumBefore (lit : List Char) : List Char → Option Int
  | [] => none
  | c :: rest =>
    if c.isDigit then
      let ds := (c :: rest).takeWhile Char.isDigit
      let after := ((c :: rest).dropWhile Char.isDigit).dropWhile isPySpace
      if lit.isPrefixOf after then some (natOfDigits ds) else searchNumBefore lit rest
    else searchNumBefore lit rest

/-- The title anchor `a.listing-search-item__link--title`: its `href`
attribute (possibly absent) and its text. -/
structure TitleLink where
  href : Option String
  text : String
deriving DecidableEq, Repr

/-- One `div` of the listing fragment: class list and text. -/
structure DivElem where
  classes : List String
  text : String
deriving DecidableEq, Repr

/-- One `.illustrated-features__item`: class list and text. -/
structure FeatureItem where
  classes : List String
  text : String
deriving DecidableEq, Repr

/-- A listing fragment as _extract_listing_data queries it: the results of
the fixed CSS selections it performs.  `image` is `none` when no
`img.picture__image` exists and `some none` when the element lacks `src`. -/
structure Fragment where
  title_link : Option TitleLink
  price_text : Option String
  divs : List DivElem
  feature_items : List FeatureItem
  image : Option (Option String)
  agency_text : Option String
deriving DecidableEq, Repr

/-- Price text used for the regex (scraper.py line 159). -/
def priceTextOf (f : Fragment) : String :=
  match f.price_text with
  | some t => pyStrip t
  | none => "Unknown"

/-- Price extraction (scraper.py lines 158-161): regex search then
`float(match.replace(',', '').replace('.', ''))`; a token such as `","` that
leaves no digits makes `float('')` raise `ValueError`. -/
def priceParse (t : String) : Except String (Option Int) :=
  match findPriceToken t.toList with
  | none => .ok none
  | some tok =>
    let ds := tok.filter Char.isDigit
    if ds.isEmpty then .error "ValueError: float" else .ok (some (natOfDigits ds))

/-- Location resolution (scraper.py lines 163-179): the first
`div.listing-search-item__sub-title`, else the first div whose joined class
string contains `"sub-title"`, else the sentinel. -/
def locationOf (f : Fragment) : String :=
  match f.divs.find? (fun d => d.classes.contains "listing-search-item__sub-title") with
  | some d => pyStrip d.text
  | none =>
    match f.divs.find? (fun d => strContains (String.intercalate " " d.classes) "sub-title") with
    | some d => pyStrip d.text
    | none => "Unknown"

/-- One iteration of the feature loop (scraper.py lines 185-202), updating
`(features['size'], features['rooms'], features['interior'])`; a matching
class overwrites the slot even when the regex fails (assigning `None`). -/
def featStep (acc : Option Int × Option Int × Option String) (it : FeatureItem) :
    Option Int × Option Int × Option String :=
  let t := pyStrip it.text
  if it.classes.any (fun c => strContains c "surface-area") then
    (searchNumBefore ['m', '²'] t.toList, acc.2.1, acc.2.2)
  else if it.classes.any (fun c => strContains c "number-of-rooms") then
    (acc.1, searchNumBefore ['r', 'o', 'o', 'm'] t.toList, acc.2.2)
  else if it.classes.any (fun c => strContains c "interior") then
    (acc.1, acc.2.1, some t)
  else acc

/-- The body of _extract_listing_data (scraper.py lines 147-225), before the
catch-all `except`: `.ok none` is the early `return {}` for a missing title
link, `.error` a raised exception (`KeyError` on a missing `href`,
`ValueError` from `float` on a digitless price token). -/
def extract_listing_data_body (now : Int) (f : Fragment) : Except String (Option Listing) :=
  match f.title_link with
  | none => .ok none
  | some tl =>
    match tl.href with
    | none => .error "KeyError: href"
    | some href =>
      let url := "https://www.pararius.com" ++ href
      let listing_id := (url.splitOn "/").getLastD ""
      let title := pyStrip tl.text
      match priceParse (priceTextOf f) with
      | .error e => .error e
      | .ok price =>
        let feats := f.feature_items.foldl featStep (none, none, none)
        let image_url : Option String :=
          match f.image with
          | some (some s) => some s
          | _ => none
        let agency : String :=
          match f.agency_text with
          | some t => pyStrip t
          | none => "Unknown"
        .ok (some {
          id := listing_id, url := url, title := title, price := price,
          size := feats.1, rooms := feats.2.1, location := locationOf f,
          interior := (feats.2.2).getD "Unknown", image_url := image_url,
          agency := agency, available := none, description := none,
          first_seen := some (TS.valid now), last_updated := some (TS.valid now) })

/-- ParariusScraper._extract_listing_data (scraper.py lines 137-228): the
catch-all `except Exception` turns any raised exception into `{}`. -/
def extract_listing_data (now : Int) (f : Fragment) : Option Listing :=
  match extract_listing_data_body now f with
  | .ok r => r
  | .error _ => none

/-! ### Scraper: fetch with retries and page walking (scraper.py lines 59-86, 230-272) -/

/-- The retry loop of _make_request (scraper.py lines 69-86) over a transport
oracle `net` (attempt index to response; `none` is a `RequestException` or
non-2xx status).  Returns the result, the ordered list of `time.sleep`
durations performed, and the number of attempts made.  `remaining` counts the
iterations the `for attempt in range(max_retries)` loop still has. -/
def make_request_loop (net : Nat → Option α) (delay maxR : Nat) :
    Nat → Nat → Option α × List Nat × Nat
  | _, 0 => (none, [], 0)
  | attempt, r + 1 =>
    match net attempt with
    | some page => (some page, [delay], 1)
    | none =>
      if attempt = maxR - 1 then (none, [], 1)
      else
        let rec' := make_request_loop net delay maxR (attempt + 1) r
        (rec'.1, delay * 2 :: rec'.2.1, rec'.2.2 + 1)

/-- ParariusScraper._make_request (scraper.py lines 59-86). -/
def make_request (net : Nat → Option α) (delay maxR : Nat) :
    Option α × List Nat × Nat :=
  make_request_loop net delay maxR 0 maxR

/-- A fetched and parsed search page as scrape_city queries it: the listing
fragments under `.search-list__item .listing-search-item` and whether a
`.pagination__link--next` marker exists. -/
structure SoupPage where
  listings : List Fragment
  has_next : Bool

/-- The pagination loop of scrape_city (scraper.py lines 241-272):
`fetch page = none` (the failed _make_request) breaks out returning the
accumulated listings; so does an empty listing selection or a missing
next-page marker.  `remaining` counts the iterations
`for page in range(1, max_pages + 1)` still has. -/
def scrape_city_go (now : Int) (fetch : Nat → Option SoupPage) :
    Nat → Nat → List Listing → List Listing
  | 0, _, acc => acc
  | r + 1, page, acc =>
    match fetch page with
    | none => acc
    | some soup =>
      if soup.listings.isEmpty then acc
      else
        let acc' := acc ++ soup.listings.filterMap (extract_listing_data now)
        if soup.has_next then scrape_city_go now fetch r (page + 1) acc' else acc'

/-- ParariusScraper.scrape_city (scraper.py lines 230-272), with the
per-page fetch (`_make_request` on the page's URL) abstracted as `fetch`. -/
def scrape_city (now : Int) (fetch : Nat → Option SoupPage) (maxPages : Nat) :
    List Listing :=
  scrape_city_go now fetch maxPages 1 []

/-! ### Concrete records for counterexamples and witnesses -/

/-- A listing with every optional field empty and sentinel defaults. -/
def baseL : Listing :=
  { id := "x", url := "https://www.pararius.com/apartment-for-rent/x", title := "T",
    price := none, size := none, rooms := none, location := "Unknown",
    interior := "Unknown", image_url := none, agency := "Unknown",
    available := none, description := none, first_seen := none,
    last_updated := none }

/-- Stored record for the C5 counterexample: first seen at instant 0. -/
def rOld5 : Listing := { baseL with first_seen := some (TS.valid 0) }

/-- Freshly crawled record for the C5 counterexample: same id, re-extracted
at instant 100. -/
def rNew5 : Listing :=
  { baseL with first_seen := some (TS.valid 100), last_updated := some (TS.valid 100) }

/-- Stored record for C10: carries a price but no `first_seen` key. -/
def ex10 : Listing := { baseL with id := "a", price := some 100 }

/-- Fresh record for C10: same id, different price. -/
def fresh10 : Listing :=
  { baseL with id := "a", price := some 200, first_seen := some (TS.valid 5) }

/-! ### Dictionary lemmas -/

theorem keys_append (d₁ d₂ : List (String × Listing)) :
    keys (d₁ ++ d₂) = keys d₁ ++ keys d₂ := by
  simp [keys]

theorem getval_eq_none : ∀ (d : List (String × Listing)) (k : String),
    getval d k = none ↔ k ∉ keys d
  | [], k => by simp [getval, keys]
  | p :: rest, k => by
    by_cases h : p.1 = k
    · apply iff_of_false
      · simp [getval, h]
      · simp [keys, h]
    · have hg : getval (p :: rest) k = getval rest k := by simp [getval, h]
      rw [hg, getval_eq_none rest k]
      simp only [keys, List.map_cons, List.mem_cons, not_or]
      constructor
      · intro hk
        exact ⟨fun he => h he.symm, hk⟩
      · intro hk
        exact hk.2

theorem getval_some_mem {d : List (String × Listing)} {k : String} {v : Listing}
    (h : getval d k = some v) : (k, v) ∈ d := by
  induction d with
  | nil => simp [getval] at h
  | cons p rest ih =>
    by_cases hp : p.1 = k
    · simp only [getval, if_pos hp] at h
      cases h
      have hpe : p = (k, p.2) := by
        rw [← hp]
      rw [← hpe]
      exact List.mem_cons_self p rest
    · simp only [getval, if_neg hp] at h
      exact List.mem_cons_of_mem _ (ih h)

theorem getval_of_mem_nodup {d : List (String × Listing)} {k : String} {v : Listing}
    (hn : (keys d).Nodup) (hm : (k, v) ∈ d) : getval d k = some v := by
  induction d with
  | nil => simp at hm
  | cons p rest ih =>
    have hn' : p.1 ∉ keys rest ∧ (keys rest).Nodup := by
      simpa [keys] using hn
    rcases List.mem_cons.mp hm with h | h
    · subst h
      simp [getval]
    · have hk : k ∈ keys rest := by
        simpa [keys] using List.mem_map_of_mem Prod.fst h
      have hp : p.1 ≠ k := by
        intro he
        exact hn'.1 (he ▸ hk)
      rw [show getval (p :: rest) k = getval rest k from by simp [getval, hp]]
      exact ih hn'.2 h

theorem any_key_iff (d : List (String × Listing)) (k : String) :
    d.any (fun p => p.1 = k) = true ↔ k ∈ keys d := by
  simp [keys, List.any_eq_true]

theorem keys_dictInsert (d : List (String × Listing)) (k : String) (v : Listing) :
    keys (dictInsert d k v) = if k ∈ keys d then keys d else keys d ++ [k] := by
  unfold dictInsert
  by_cases h : k ∈ keys d
  · rw [if_pos ((any_key_iff d k).mpr h), if_pos h]
    show keys (d.map fun p => if p.1 = k then (k, v) else p) = keys d
    simp only [keys, List.map_map]
    apply List.map_congr_left
    intro p _
    by_cases hp : p.1 = k
    · simp [Function.comp, hp]
    · simp [Function.comp, hp]
  · rw [if_neg (fun hc => h ((any_key_iff d k).mp hc)), if_neg h, keys_append]
    rfl

theorem nodup_keys_dictInsert {d : List (String × Listing)} (k : String) (v : Listing)
    (hn : (keys d).Nodup) : (keys (dictInsert d k v)).Nodup := by
  rw [keys_dictInsert]
  by_cases h : k ∈ keys d
  · simpa [h] using hn
  · rw [if_neg h]
    refine List.Nodup.append hn (List.nodup_singleton k) ?_
    intro a ha hb
    rw [List.mem_singleton] at hb
    exact h (hb ▸ ha)

/-- Values of an id-keyed dict carry an `id` equal to their key. -/
def VMK (d : List (String × Listing)) : Prop := ∀ p ∈ d, p.2.id = p.1

theorem vmk_dictInsert {d : List (String × Listing)} {k : String} {v : Listing}
    (hd : VMK d) (hv : v.id = k) : VMK (dictInsert d k v) := by
  unfold dictInsert
  split
  · intro p hp
    rcases List.mem_map.mp hp with ⟨q, hq, he⟩
    by_cases hqk : q.1 = k
    · simp only [hqk, if_pos rfl] at he
      simp [← he, hv]
    · simp only [if_neg hqk] at he
      rw [← he]
      exact hd q hq
  · intro p hp
    rcases List.mem_append.mp hp with h | h
    · exact hd p h
    · simp only [List.mem_singleton] at h
      simp [h, hv]

theorem buildById_invariant (ls : List Listing) :
    ∀ d : List (String × Listing), (keys d).Nodup → VMK d →
      (keys (ls.foldl (fun d l => dictInsert d l.id l) d)).Nodup ∧
      VMK (ls.foldl (fun d l => dictInsert d l.id l) d) ∧
      (∀ k, k ∈ keys (ls.foldl (fun d l => dictInsert d l.id l) d) ↔
        k ∈ keys d ∨ k ∈ ls.map Listing.id) := by
  induction ls with
  | nil => intro d hn hv; simpa using ⟨hn, hv⟩
  | cons l ls ih =>
    intro d hn hv
    simp only [List.foldl_cons]
    obtain ⟨h1, h2, h3⟩ := ih (dictInsert d l.id l)
      (nodup_keys_dictInsert l.id l hn) (vmk_dictInsert hv rfl)
    refine ⟨h1, h2, fun k => ?_⟩
    rw [h3 k, keys_dictInsert]
    by_cases h : l.id ∈ keys d
    · simp only [if_pos h, List.map_cons, List.mem_cons]
      constructor
      · rintro (hk | hk)
        · exact Or.inl hk
        · exact Or.inr (Or.inr hk)
      · rintro (hk | hk | hk)
        · exact Or.inl hk
        · exact Or.inl (hk ▸ h)
        · exact Or.inr hk
    · simp only [if_neg h, List.mem_append, List.mem_singleton, List.map_cons,
        List.mem_cons]
      tauto

theorem nodup_keys_buildById (ls : List Listing) : (keys (buildById ls)).Nodup :=
  (buildById_invariant ls [] (by simp [keys]) (by intro p hp; simp at hp)).1

theorem vmk_buildById (ls : List Listing) : VMK (buildById ls) :=
  (buildById_invariant ls [] (by simp [keys]) (by intro p hp; simp at hp)).2.1

theorem mem_keys_buildById (ls : List Listing) (k : String) :
    k ∈ keys (buildById ls) ↔ k ∈ ls.map Listing.id := by
  have := (buildById_invariant ls [] (by simp [keys]) (by intro p hp; simp at hp)).2.2 k
  simpa [keys] using this

theorem buildById_of_nodup_go (ls : List Listing) :
    ∀ d : List (String × Listing), (ls.map Listing.id).Nodup →
      (∀ k, k ∈ keys d → k ∉ ls.map Listing.id) →
      ls.foldl (fun d l => dictInsert d l.id l) d = d ++ ls.map (fun l => (l.id, l)) := by
  induction ls with
  | nil => intro d _ _; simp
  | cons l ls ih =>
    intro d hn hdisj
    simp only [List.foldl_cons]
    have hnotin : l.id ∉ keys d := by
      intro h
      exact hdisj l.id h (by simp)
    have hins : dictInsert d l.id l = d ++ [(l.id, l)] := by
      unfold dictInsert
      rw [if_neg (fun hc => hnotin ((any_key_iff d l.id).mp hc))]
    rw [hins, ih (d ++ [(l.id, l)])
      (by simpa using (List.nodup_cons.mp (by simpa using hn)).2)
      (by
        intro k hk hmem
        rw [keys_append] at hk
        rcases List.mem_append.mp hk with h | h
        · exact hdisj k h (List.mem_cons_of_mem _ hmem)
        · simp only [keys, List.map_cons, List.map_nil, List.mem_singleton] at h
          subst h
          exact (List.nodup_cons.mp (by simpa using hn)).1 hmem)]
    simp

theorem buildById_of_nodup {ls : List Listing} (hn : (ls.map Listing.id).Nodup) :
    buildById ls = ls.map (fun l => (l.id, l)) := by
  have := buildById_of_nodup_go ls [] hn (by simp [keys])
  simpa [buildById] using this

/-! ### exceptMapM lemmas -/

theorem exceptMapM_ok_forall₂ {f : α → Except String β} :
    ∀ {l : List α} {rs : List β}, exceptMapM f l = .ok rs →
      List.Forall₂ (fun a b => f a = .ok b) l rs := by
  intro l
  induction l with
  | nil =>
    intro rs h
    simp only [exceptMapM] at h
    cases h
    exact List.Forall₂.nil
  | cons a as ih =>
    intro rs h
    simp only [exceptMapM] at h
    cases hfa : f a with
    | error e => rw [hfa] at h; cases h
    | ok b =>
      rw [hfa] at h
      cases hrest : exceptMapM f as with
      | error e => rw [hrest] at h; cases h
      | ok bs =>
        rw [hrest] at h
        cases h
        exact List.Forall₂.cons hfa (ih hrest)

theorem exceptMapM_map {f : α → Except String β} {g : α → β} :
    ∀ {l : List α}, (∀ a ∈ l, f a = .ok (g a)) → exceptMapM f l = .ok (l.map g) := by
  intro l
  induction l with
  | nil => intro _; simp [exceptMapM]
  | cons a as ih =>
    intro h
    simp only [exceptMapM, h a (by simp), ih (fun x hx => h x (List.mem_cons_of_mem _ hx)),
      List.map_cons]

/-! ### Forall₂ helpers -/

theorem forall₂_mem_right {R : α → β → Prop} {l₁ : List α} {l₂ : List β}
    (h : List.Forall₂ R l₁ l₂) : ∀ {b}, b ∈ l₂ → ∃ a ∈ l₁, R a b := by
  induction h with
  | nil => intro b hb; simp at hb
  | cons hR hrest ih =>
    intro b hb
    rcases List.mem_cons.mp hb with h | h
    · exact ⟨_, by simp, h ▸ hR⟩
    · obtain ⟨a, ha, hRa⟩ := ih h
      exact ⟨a, List.mem_cons_of_mem _ ha, hRa⟩

theorem forall₂_mem_left {R : α → β → Prop} {l₁ : List α} {l₂ : List β}
    (h : List.Forall₂ R l₁ l₂) : ∀ {a}, a ∈ l₁ → ∃ b ∈ l₂, R a b := by
  induction h with
  | nil => intro a ha; simp at ha
  | cons hR hrest ih =>
    intro a ha
    rcases List.mem_cons.mp ha with h | h
    · exact ⟨_, by simp, h ▸ hR⟩
    · obtain ⟨b, hb, hRb⟩ := ih h
      exact ⟨b, List.mem_cons_of_mem _ hb, hRb⟩

theorem forall₂_map_eq {R : α → β → Prop} {f : α → γ} {g : β → γ} {l₁ : List α}
    {l₂ : List β} (h : List.Forall₂ R l₁ l₂)
    (hc : ∀ a ∈ l₁, ∀ b, R a b → g b = f a) : l₂.map g = l₁.map f := by
  induction h with
  | nil => rfl
  | cons hR hrest ih =>
    simp only [List.map_cons]
    rw [hc _ (by simp) _ hR, ih (fun a ha b hr => hc a (List.mem_cons_of_mem _ ha) b hr)]

/-! ### compareStep characterization -/

theorem compareStep_entry_key {exd : List (String × Listing)} {now : Int}
    {e : String × Listing} {r : Option Listing × Option Listing × (String × Listing)}
    (h : compareStep exd now e = .ok r) : r.2.2.1 = e.1 := by
  unfold compareStep at h
  split at h
  · cases h; rfl
  · split at h
    · split at h
      · cases h
      · cases h; rfl
    · cases h; rfl

theorem compareStep_entry_id {exd : List (String × Listing)} {now : Int}
    {e : String × Listing} {r : Option Listing × Option Listing × (String × Listing)}
    (hvx : VMK exd) (hid : e.2.id = e.1)
    (h : compareStep exd now e = .ok r) : r.2.2.2.id = e.1 := by
  unfold compareStep at h
  split at h
  · cases h; exact hid
  next exL hx =>
    have hexid : exL.id = e.1 := hvx _ (getval_some_mem hx)
    split at h
    · split at h
      · cases h
      · cases h; exact hid
    · cases h; exact hexid

theorem compareStep_added {exd : List (String × Listing)} {now : Int}
    {e : String × Listing} {r : Option Listing × Option Listing × (String × Listing)}
    {l : Listing} (h : compareStep exd now e = .ok r) (hl : r.1 = some l) :
    l = e.2 ∧ getval exd e.1 = none := by
  unfold compareStep at h
  split at h
  next hx =>
    cases h
    injection hl with hl
    exact ⟨hl.symm, hx⟩
  · split at h
    · split at h
      · cases h
      · cases h; cases hl
    · cases h; cases hl

theorem compareStep_updated {exd : List (String × Listing)} {now : Int}
    {e : String × Listing} {r : Option Listing × Option Listing × (String × Listing)}
    {l : Listing} (h : compareStep exd now e = .ok r) (hl : r.2.1 = some l) :
    ∃ exL fs, getval exd e.1 = some exL ∧ is_listing_updated e.2 exL = true ∧
      exL.first_seen = some fs ∧
      l = { e.2 with first_seen := some fs, last_updated := some (TS.valid now) } ∧
      r.2.2 = (e.1, l) := by
  unfold compareStep at h
  split at h
  · cases h; cases hl
  next exL hx =>
    split at h
    next hu =>
      split at h
      · cases h
      next fs hfs =>
        cases h
        injection hl with hl
        subst hl
        exact ⟨exL, fs, hx, hu, hfs, rfl, rfl⟩
    · cases h; cases hl

theorem compareStep_present_first_seen {exd : List (String × Listing)} {now : Int}
    {e : String × Listing} {r : Option Listing × Option Listing × (String × Listing)}
    {exL : Listing} (h : compareStep exd now e = .ok r)
    (hx : getval exd e.1 = some exL) : r.2.2.2.first_seen = exL.first_seen := by
  unfold compareStep at h
  rw [hx] at h
  dsimp only at h
  split at h
  · split at h
    · cases h
    next fs hfs => cases h; exact hfs.symm
  · cases h; rfl

/-- Unfolding of a successful compare_listings call. -/
theorem compare_listings_ok {now maxAge : Int}
    {new_listings existing_listings a u c : List Listing}
    (h : compare_listings now maxAge new_listings existing_listings = .ok (a, u, c)) :
    ∃ results,
      exceptMapM (compareStep (buildById existing_listings) now)
        (buildById new_listings) = .ok results ∧
      a = results.filterMap (fun r => r.1) ∧
      u = results.filterMap (fun r => r.2.1) ∧
      c = (results.map (fun r => r.2.2)).map Prod.snd ++
        (buildById existing_listings).filterMap (fun p =>
          if (getval (buildById new_listings) p.1).isNone &&
             !is_listing_too_old now maxAge p.2 then some p.2 else none) := by
  unfold compare_listings at h
  dsimp only at h
  split at h
  · cases h
  next results he =>
    simp only [Except.ok.injEq, Prod.mk.injEq] at h
    obtain ⟨h1, h2, h3⟩ := h
    exact ⟨results, he, h1.symm, h2.symm, h3.symm⟩

/-! ### filterMap and counting helpers -/

theorem filterMap_if_ids_sublist (P : String × Listing → Bool) :
    ∀ d : List (String × Listing), VMK d →
      ((d.filterMap (fun p => if P p then some p.2 else none)).map Listing.id).Sublist
        (keys d) := by
  intro d
  induction d with
  | nil => intro _; simp [keys]
  | cons p rest ih =>
    intro hv
    have hvr : VMK rest := fun q hq => hv q (List.mem_cons_of_mem _ hq)
    have hkeys : keys (p :: rest) = p.1 :: keys rest := rfl
    by_cases hP : P p = true
    · simp only [List.filterMap_cons, hP, if_pos, List.map_cons, hkeys]
      rw [hv p (by simp)]
      exact List.Sublist.cons₂ p.1 (ih hvr)
    · simp only [List.filterMap_cons, if_neg hP, hkeys]
      exact List.Sublist.cons p.1 (ih hvr)

theorem mem_filterMap_if {P : String × Listing → Bool} {d : List (String × Listing)}
    {x : Listing} (hx : x ∈ d.filterMap (fun p => if P p then some p.2 else none)) :
    ∃ p ∈ d, P p = true ∧ p.2 = x := by
  rcases List.mem_filterMap.mp hx with ⟨p, hp, hpe⟩
  by_cases hP : P p = true
  · rw [if_pos hP] at hpe
    exact ⟨p, hp, hP, by injection hpe⟩
  · rw [if_neg hP] at hpe
    cases hpe

theorem mem_filterMap_if_of {P : String × Listing → Bool} {d : List (String × Listing)}
    {p : String × Listing} (hp : p ∈ d) (hP : P p = true) :
    p.2 ∈ d.filterMap (fun q => if P q then some q.2 else none) :=
  List.mem_filterMap.mpr ⟨p, hp, by rw [if_pos hP]⟩

theorem filterMap_eq_nil_of {f : α → Option β} {l : List α}
    (h : ∀ a ∈ l, f a = none) : l.filterMap f = [] := by
  induction l with
  | nil => rfl
  | cons a as ih =>
    rw [List.filterMap_cons, h a (by simp)]
    exact ih (fun x hx => h x (List.mem_cons_of_mem _ hx))

theorem is_listing_updated_self (l : Listing) : is_listing_updated l l = false := by
  simp [is_listing_updated]

theorem length_sub_filter_not (p : α → Bool) (l : List α) :
    l.length - (l.filter (fun x => !p x)).length = l.countP p := by
  induction l with
  | nil => simp
  | cons a l ih =>
    have hle := List.length_filter_le (fun x => !p x) l
    by_cases hp : p a = true
    · simp [List.filter_cons, List.countP_cons, hp]
      omega
    · simp [List.filter_cons, List.countP_cons, hp]
      omega

/-! ### Claim theorems -/

/-- C1: whenever compare_listings returns `(added, updated, allCurrent)`,
every id in `added` is absent from the stored input's id set, every id in
`updated` occurs in both inputs' id sets, and `allCurrent` contains no two
records with the same id. -/
theorem C1_compare_classification (now maxAge : Int)
    (new_listings existing_listings a u c : List Listing)
    (h : compare_listings now maxAge new_listings existing_listings = .ok (a, u, c)) :
    (∀ l ∈ a, l.id ∉ existing_listings.map Listing.id) ∧
    (∀ l ∈ u, l.id ∈ new_listings.map Listing.id ∧
      l.id ∈ existing_listings.map Listing.id) ∧
    (c.map Listing.id).Nodup := by
  obtain ⟨results, he, ha, hu, hc⟩ := compare_listings_ok h
  have hf := exceptMapM_ok_forall₂ he
  have hvx := vmk_buildById existing_listings
  have hvn := vmk_buildById new_listings
  refine ⟨?_, ?_, ?_⟩
  · intro l hl
    rw [ha] at hl
    rcases List.mem_filterMap.mp hl with ⟨r, hr, hrl⟩
    obtain ⟨e, heN, hstep⟩ := forall₂_mem_right hf hr
    obtain ⟨hle, hnone⟩ := compareStep_added hstep hrl
    have hid : l.id = e.1 := by rw [hle]; exact hvn e heN
    intro hmem
    rw [hid] at hmem
    exact (getval_eq_none _ _).mp hnone ((mem_keys_buildById _ _).mpr hmem)
  · intro l hl
    rw [hu] at hl
    rcases List.mem_filterMap.mp hl with ⟨r, hr, hrl⟩
    obtain ⟨e, heN, hstep⟩ := forall₂_mem_right hf hr
    obtain ⟨exL, fs, hx, _, _, hleq, _⟩ := compareStep_updated hstep hrl
    have hid : l.id = e.1 := by rw [hleq]; exact hvn e heN
    constructor
    · rw [hid]
      exact (mem_keys_buildById _ _).mp (List.mem_map_of_mem Prod.fst heN)
    · rw [hid]
      apply (mem_keys_buildById _ _).mp
      by_contra hnk
      rw [← getval_eq_none (buildById existing_listings) e.1] at hnk
      rw [hnk] at hx
      cases hx
  · rw [hc, List.map_append]
    have hids1 : ((results.map fun r => r.2.2).map Prod.snd).map Listing.id =
        keys (buildById new_listings) := by
      simp only [List.map_map]
      exact forall₂_map_eq hf (fun e heN r hr =>
        compareStep_entry_id hvx (hvn e heN) hr)
    rw [hids1]
    refine List.Nodup.append (nodup_keys_buildById _)
      (List.Nodup.sublist (filterMap_if_ids_sublist _ _ hvx)
        (nodup_keys_buildById existing_listings)) ?_
    intro x hx1 hx2
    rcases List.mem_map.mp hx2 with ⟨v, hv, hvid⟩
    obtain ⟨p, hp, hPp, hpv⟩ := mem_filterMap_if hv
    have h1 : (getval (buildById new_listings) p.1).isNone = true := by
      have hPp' := hPp
      simp only [Bool.and_eq_true] at hPp'
      exact hPp'.1
    have h2 : getval (buildById new_listings) p.1 = none :=
      Option.isNone_iff_eq_none.mp h1
    have hxk : x = p.1 := by
      rw [← hvid, ← hpv]
      exact hvx p hp
    rw [hxk] at hx1
    exact (getval_eq_none _ _).mp h2 hx1

/-- C1 witness: a run with one fresh and one stored record sharing an id and
equal compared fields. -/
theorem C1_witness :
    (∀ l ∈ ([] : List Listing), l.id ∉ [rOld5].map Listing.id) ∧
    (∀ l ∈ ([] : List Listing), l.id ∈ [rNew5].map Listing.id ∧
      l.id ∈ [rOld5].map Listing.id) ∧
    (([rOld5] : List Listing).map Listing.id).Nodup :=
  C1_compare_classification 100 30 [rNew5] [rOld5] [] [] [rOld5] (by rfl)

/-- C2: reconciling a duplicate-free record set with itself yields no added
records, no updated records, and allCurrent equal to the input (in
particular of the same length). -/
theorem C2_compare_idempotent (now maxAge : Int) (S : List Listing)
    (hn : (S.map Listing.id).Nodup) :
    compare_listings now maxAge S S = .ok ([], [], S) := by
  have hb : buildById S = S.map (fun l => (l.id, l)) := buildById_of_nodup hn
  have hkeys : (keys (buildById S)).Nodup := nodup_keys_buildById S
  have hget : ∀ p ∈ buildById S, getval (buildById S) p.1 = some p.2 := by
    intro p hp
    exact getval_of_mem_nodup hkeys (by simpa using hp)
  have hstep : ∀ e ∈ buildById S, compareStep (buildById S) now e = .ok (none, none, e) := by
    intro e he
    unfold compareStep
    rw [hget e he]
    simp [is_listing_updated_self]
  have hmapM := exceptMapM_map hstep
  unfold compare_listings
  dsimp only
  rw [hmapM]
  dsimp only
  have hadded : ((buildById S).map fun e =>
      ((none : Option Listing), (none : Option Listing), e)).filterMap (fun r => r.1) = [] := by
    rw [List.filterMap_map]
    exact filterMap_eq_nil_of (fun a _ => rfl)
  have hupdated : ((buildById S).map fun e =>
      ((none : Option Listing), (none : Option Listing), e)).filterMap (fun r => r.2.1) = [] := by
    rw [List.filterMap_map]
    exact filterMap_eq_nil_of (fun a _ => rfl)
  have hpres : (buildById S).filterMap (fun p =>
      if (getval (buildById S) p.1).isNone && !is_listing_too_old now maxAge p.2
      then some p.2 else none) = [] := by
    apply filterMap_eq_nil_of
    intro p hp
    rw [hget p hp]
    rfl
  have hentries : (((buildById S).map fun e =>
      ((none : Option Listing), (none : Option Listing), e)).map (fun r => r.2.2)).map Prod.snd = S := by
    simp only [List.map_map]
    rw [hb]
    simp only [List.map_map]
    show S.map (fun l => l) = S
    simp
  rw [hadded, hupdated, hpres, hentries]
  simp

/-- C2 witness: a one-record set reconciled with itself. -/
theorem C2_witness : compare_listings 100 30 [rOld5] [rOld5] = .ok ([], [], [rOld5]) :=
  C2_compare_idempotent 100 30 [rOld5] (by decide)

/-- C3: every record classified as updated carries the stored record's
`first_seen` unchanged, `last_updated` set to the current time, and the
fresh record's values for every other field (it equals the fresh record
updated only in those two fields), and it is placed in allCurrent. -/
theorem C3_update_frame (now maxAge : Int)
    (new_listings existing_listings a u c : List Listing)
    (h : compare_listings now maxAge new_listings existing_listings = .ok (a, u, c)) :
    ∀ l ∈ u, ∃ fresh exL fs,
      getval (buildById new_listings) l.id = some fresh ∧
      getval (buildById existing_listings) l.id = some exL ∧
      exL.first_seen = some fs ∧
      l = { fresh with first_seen := some fs, last_updated := some (TS.valid now) } ∧
      l ∈ c := by
  obtain ⟨results, he, ha, hu, hc⟩ := compare_listings_ok h
  have hf := exceptMapM_ok_forall₂ he
  have hvn := vmk_buildById new_listings
  intro l hl
  rw [hu] at hl
  rcases List.mem_filterMap.mp hl with ⟨r, hr, hrl⟩
  obtain ⟨e, heN, hstep⟩ := forall₂_mem_right hf hr
  obtain ⟨exL, fs, hx, hupd, hfs, hleq, hent⟩ := compareStep_updated hstep hrl
  have hid : l.id = e.1 := by rw [hleq]; exact hvn e heN
  have hgetn : getval (buildById new_listings) e.1 = some e.2 :=
    getval_of_mem_nodup (nodup_keys_buildById new_listings) (by simpa using heN)
  refine ⟨e.2, exL, fs, ?_, ?_, hfs, hleq, ?_⟩
  · rw [hid]; exact hgetn
  · rw [hid]; exact hx
  · rw [hc]
    apply List.mem_append_left
    have h2 : r.2.2.2 ∈ (results.map (fun r => r.2.2)).map Prod.snd :=
      List.mem_map_of_mem Prod.snd (List.mem_map_of_mem _ hr)
    rw [hent] at h2
    exact h2

/-- Updated record as produced in the C3 witness run. -/
def upd3 : Listing :=
  { baseL with price := some 200, first_seen := some (TS.valid 0),
               last_updated := some (TS.valid 50) }

/-- Stored record for the C3 witness: price 100, first seen at 0. -/
def ex3 : Listing :=
  { baseL with price := some 100, first_seen := some (TS.valid 0),
               last_updated := some (TS.valid 0) }

/-- Fresh record for the C3 witness: price 200, extracted at 50. -/
def fr3 : Listing :=
  { baseL with price := some 200, first_seen := some (TS.valid 50),
               last_updated := some (TS.valid 50) }

/-- C3 witness: a price change of a stored record. -/
theorem C3_witness :
    ∃ fresh exL fs,
      getval (buildById [fr3]) upd3.id = some fresh ∧
      getval (buildById [ex3]) upd3.id = some exL ∧
      exL.first_seen = some fs ∧
      upd3 = { fresh with first_seen := some fs, last_updated := some (TS.valid 50) } ∧
      upd3 ∈ [upd3] :=
  C3_update_frame 50 30 [fr3] [ex3] [] [upd3] [upd3] (by rfl) upd3 (by simp)

/-- C4: in compare_listings a stored record whose id is absent from the
fresh input survives verbatim in allCurrent exactly when it is not too old
(now - first_seen strictly greater than the maximum age evicts it); an
unparseable `first_seen` counts as not too old, a missing `first_seen` is
treated as the current time, and the cleaning pass counts exactly the
too-old records it evicts. -/
theorem C4_absent_survival_and_eviction (now maxAge : Int)
    (new_listings existing_listings a u c : List Listing) (k : String) (ex : Listing)
    (h : compare_listings now maxAge new_listings existing_listings = .ok (a, u, c))
    (hex : getval (buildById existing_listings) k = some ex)
    (habs : k ∉ new_listings.map Listing.id) :
    (is_listing_too_old now maxAge ex = false → ex ∈ c) ∧
    (is_listing_too_old now maxAge ex = true → ex ∉ c) ∧
    (∀ l : Listing, l.first_seen = some TS.invalid →
      is_listing_too_old now maxAge l = false) ∧
    (∀ l : Listing, l.first_seen = none →
      is_listing_too_old now maxAge l =
        is_listing_too_old now maxAge { l with first_seen := some (TS.valid now) }) ∧
    ((clean_old_listings now maxAge existing_listings).2 =
      existing_listings.countP (fun l => is_listing_too_old now maxAge l)) := by
  obtain ⟨results, he, ha, hu, hc⟩ := compare_listings_ok h
  have hf := exceptMapM_ok_forall₂ he
  have hvx := vmk_buildById existing_listings
  have hvn := vmk_buildById new_listings
  have hexid : ex.id = k := hvx _ (getval_some_mem hex)
  have hnko : k ∉ keys (buildById new_listings) := by
    intro hk
    exact habs ((mem_keys_buildById _ _).mp hk)
  have hgetnone : getval (buildById new_listings) k = none :=
    (getval_eq_none _ _).mpr hnko
  refine ⟨?_, ?_, ?_, ?_, ?_⟩
  · intro hyoung
    rw [hc]
    apply List.mem_append_right
    have hmem : (k, ex) ∈ buildById existing_listings := getval_some_mem hex
    have hcond : ((getval (buildById new_listings) (k, ex).1).isNone &&
        !is_listing_too_old now maxAge (k, ex).2) = true := by
      simp [hgetnone, hyoung]
    exact mem_filterMap_if_of hmem hcond
  · intro hold hmem
    rw [hc] at hmem
    rcases List.mem_append.mp hmem with hm | hm
    · rcases List.mem_map.mp hm with ⟨pr, hpr, hpre⟩
      rcases List.mem_map.mp hpr with ⟨r, hr, hre⟩
      obtain ⟨e, heN, hstep⟩ := forall₂_mem_right hf hr
      have hidk : r.2.2.2.id = e.1 := compareStep_entry_id hvx (hvn e heN) hstep
      have hxe : ex.id = e.1 := by
        rw [← hidk, hre, hpre]
      have hke : k = e.1 := by rw [← hexid, hxe]
      rw [hke] at hnko
      exact hnko (List.mem_map_of_mem Prod.fst heN)
    · obtain ⟨p, hp, hPp, hpv⟩ := mem_filterMap_if hm
      have hPp' := hPp
      simp only [Bool.and_eq_true, Bool.not_eq_true'] at hPp'
      rw [hpv] at hPp'
      rw [hPp'.2] at hold
      cases hold
  · intro l hl
    unfold is_listing_too_old
    rw [hl]
  · intro l hl
    unfold is_listing_too_old
    rw [hl]
  · exact length_sub_filter_not _ existing_listings

/-- C4 witness: a stored record aged past the maximum and absent from an
empty fresh crawl. -/
theorem C4_witness :
    (is_listing_too_old 100 30 rOld5 = false → rOld5 ∈ ([] : List Listing)) ∧
    (is_listing_too_old 100 30 rOld5 = true → rOld5 ∉ ([] : List Listing)) ∧
    (∀ l : Listing, l.first_seen = some TS.invalid →
      is_listing_too_old 100 30 l = false) ∧
    (∀ l : Listing, l.first_seen = none →
      is_listing_too_old 100 30 l =
        is_listing_too_old 100 30 { l with first_seen := some (TS.valid 100) }) ∧
    ((clean_old_listings 100 30 [rOld5]).2 =
      ([rOld5] : List Listing).countP (fun l => is_listing_too_old 100 30 l)) :=
  C4_absent_survival_and_eviction 100 30 [] [rOld5] [] [] [] "x" rOld5
    (by rfl) (by rfl) (by simp)

/-- C5 counterexample: a stored record first seen at 0 whose id is re-seen
in the crawl at time 100 (max age 30).  main's pre-crawl clean_old_listings
pass evicts it before the comparison, so the pipeline result lists the id as
*added* with `first_seen` reset to 100: the record is dropped by age and
loses its original `first_seen` despite being re-seen. -/
theorem C5_counterexample :
    (mainRun 100 30 true [rOld5] [rNew5] true).2 = some ([rNew5], [], [rNew5]) ∧
    rNew5.id = rOld5.id ∧
    rOld5.first_seen = some (TS.valid 0) ∧
    rNew5.first_seen = some (TS.valid 100) ∧
    rOld5 ∉ ([rNew5] : List Listing) ∧
    (100 : Int) - 0 > 30 := by
  refine ⟨by rfl, by rfl, by rfl, by rfl, ?_, by decide⟩
  intro hmem
  rw [List.mem_singleton] at hmem
  cases hmem

/-- C5 amended: within the reconciliation pass (compare_listings) itself,
eviction applies only to records not re-seen: a stored record whose id
occurs in the fresh input always yields a record with that id in allCurrent
carrying the stored `first_seen`, with no age condition.  main additionally
runs clean_old_listings before the crawl, which evicts too-old stored
records regardless of the upcoming crawl (see the counterexample). -/
theorem C5_amended_reseen_never_aged_in_compare (now maxAge : Int)
    (new_listings existing_listings a u c : List Listing) (k : String) (ex : Listing)
    (h : compare_listings now maxAge new_listings existing_listings = .ok (a, u, c))
    (hex : getval (buildById existing_listings) k = some ex)
    (hseen : k ∈ new_listings.map Listing.id) :
    ∃ l ∈ c, l.id = k ∧ l.first_seen = ex.first_seen := by
  obtain ⟨results, he, ha, hu, hc⟩ := compare_listings_ok h
  have hf := exceptMapM_ok_forall₂ he
  have hvx := vmk_buildById existing_listings
  have hvn := vmk_buildById new_listings
  have hk : k ∈ keys (buildById new_listings) := (mem_keys_buildById _ _).mpr hseen
  rcases List.mem_map.mp hk with ⟨e, heN, hek⟩
  obtain ⟨r, hr, hstep⟩ := forall₂_mem_left hf heN
  have hid : r.2.2.2.id = e.1 := compareStep_entry_id hvx (hvn e heN) hstep
  have hfs : r.2.2.2.first_seen = ex.first_seen :=
    compareStep_present_first_seen hstep (by rw [hek]; exact hex)
  refine ⟨r.2.2.2, ?_, by rw [hid, hek], hfs⟩
  rw [hc]
  apply List.mem_append_left
  exact List.mem_map_of_mem Prod.snd (List.mem_map_of_mem _ hr)

/-- C5 amended witness: same-id stored and fresh records with no field
change; the carried-over record keeps the stored `first_seen`. -/
theorem C5_amended_witness :
    ∃ l ∈ ([rOld5] : List Listing), l.id = "x" ∧ l.first_seen = rOld5.first_seen :=
  C5_amended_reseen_never_aged_in_compare 100 30 [rNew5] [rOld5] [] [] [rOld5]
    "x" rOld5 (by rfl) (by rfl) (by decide)

/-- C9 counterexample: with configuration loaded, an empty store and crawl,
and the end-of-run save_listings returning failure, main still returns exit
code 0, contradicting the claim that a failed write yields a non-zero exit
code. -/
theorem C9_counterexample :
    (mainRun 0 30 true [] [] false).1 = 0 ∧ ¬ (mainRun 0 30 true [] [] false).1 ≠ 0 := by
  refine ⟨by rfl, ?_⟩
  intro hne
  exact hne (by rfl)

/-- C9 amended: main discards save_listings' boolean, so a failed end-of-run
write leaves the pipeline outcome successful: the exit code is 0 and the
in-memory result `(added, updated, allCurrent)` is exactly the comparison's
result, identical whether the write succeeds or fails. -/
theorem C9_amended_save_failure_ignored (now maxAge : Int)
    (stored fresh : List Listing) (r : List Listing × List Listing × List Listing)
    (h : compare_listings now maxAge fresh (clean_old_listings now maxAge stored).1 =
      .ok r) :
    mainRun now maxAge true stored fresh false = (0, some r) ∧
    mainRun now maxAge true stored fresh false =
      mainRun now maxAge true stored fresh true := by
  constructor
  · simp [mainRun, h]
  · rfl

/-- C9 amended witness: an empty run with a failing write. -/
theorem C9_amended_witness :
    mainRun 0 30 true [] [] false = (0, some ([], [], [])) ∧
    mainRun 0 30 true [] [] false = mainRun 0 30 true [] [] true :=
  C9_amended_save_failure_ignored 0 30 [] [] ([], [], []) (by rfl)

/-- C10: compare_listings is not total on stored records missing
`first_seen`: a stored record without the key whose matching fresh record
has a different price makes the update classification read
`existing_listing['first_seen']` and raise KeyError, while the eviction
path's `_is_listing_too_old` treats the same record as first seen now (not
too old). -/
theorem C10_missing_first_seen_raises :
    compare_listings 10 30 [fresh10] [ex10] = .error "KeyError: first_seen" ∧
    ex10.first_seen = none ∧
    fresh10.price ≠ ex10.price ∧
    is_listing_too_old 10 30 ex10 = false := by
  refine ⟨by rfl, by rfl, ?_, by rfl⟩
  intro hpe
  cases hpe

/-! ### URL construction lemmas -/

theorem priceParams_eq (pm : Option (Option Nat)) (px : Option Nat)
    (hmin : ∀ v, pm = some (some v) → 0 < v) (hmax : ∀ v, px = some v → 0 < v) :
    priceParamsOf (min_price_of pm) px = priceSegClaimed pm.join px := by
  rcases pm with _ | pmv
  · rcases px with _ | mx
    · rfl
    · show [s!"{(0 : Nat)}-{mx}"] = [s!"0-{mx}"]
      rw [show s!"{(0 : Nat)}-{mx}" = s!"0-{mx}" from rfl]
  · rcases pmv with _ | v
    · rcases px with _ | mx
      · rfl
      · have hmx : mx ≠ 0 := (hmax mx rfl).ne'
        simp [priceParamsOf, priceSegClaimed, min_price_of, Option.join, hmx]
    · rcases px with _ | mx
      · have hv : v ≠ 0 := (hmin v rfl).ne'
        simp [priceParamsOf, priceSegClaimed, min_price_of, Option.join, hv]
      · rfl

theorem bedParams_eq (pb : Option Nat) (h : ∀ v, pb = some v → 0 < v) :
    bedroomParamsOf pb = bedSegClaimed pb := by
  cases pb with
  | none => rfl
  | some b => simp [bedroomParamsOf, bedSegClaimed, (h b rfl).ne']

theorem sizeParams_eq (ps : Option Nat) (h : ∀ v, ps = some v → 0 < v) :
    sizeParamsOf ps = sizeSegClaimed ps := by
  cases ps with
  | none => rfl
  | some m => simp [sizeParamsOf, sizeSegClaimed, (h m rfl).ne']

/-- C6: for every configuration whose present filter values are positive,
_build_search_url produces base path + city followed, in fixed order, by the
claimed price segment, the bedrooms segment, the size segment, and a page
segment only for page > 1; the representative configs evaluate to the
claimed URLs. -/
theorem C6_build_search_url (cfg : ScraperConfig) (city : String) (page : Nat)
    (hp : cfg.Positive) :
    build_search_url cfg city page = search_url_claimed cfg city page ∧
    build_search_url ⟨some (some 800), some 1500, some 2, some 50⟩ "rotterdam" 1 =
      "https://www.pararius.com/apartments/rotterdam/800-1500/2-bedrooms/50-m2" ∧
    build_search_url ⟨some (some 800), some 1500, some 2, some 50⟩ "rotterdam" 3 =
      "https://www.pararius.com/apartments/rotterdam/800-1500/2-bedrooms/50-m2/page-3" := by
  obtain ⟨hmin, hmax, hbed, hsize⟩ := hp
  refine ⟨?_, by rfl, by rfl⟩
  unfold build_search_url search_url_claimed
  dsimp only
  rw [priceParams_eq cfg.price_min cfg.price_max hmin hmax,
    bedParams_eq cfg.min_bedrooms hbed, sizeParams_eq cfg.min_size hsize]

/-- C6 witness: the representative configuration of the claim. -/
theorem C6_witness :
    build_search_url ⟨some (some 800), some 1500, some 2, some 50⟩ "rotterdam" 3 =
      search_url_claimed ⟨some (some 800), some 1500, some 2, some 50⟩ "rotterdam" 3 ∧
    build_search_url ⟨some (some 800), some 1500, some 2, some 50⟩ "rotterdam" 1 =
      "https://www.pararius.com/apartments/rotterdam/800-1500/2-bedrooms/50-m2" ∧
    build_search_url ⟨some (some 800), some 1500, some 2, some 50⟩ "rotterdam" 3 =
      "https://www.pararius.com/apartments/rotterdam/800-1500/2-bedrooms/50-m2/page-3" :=
  C6_build_search_url ⟨some (some 800), some 1500, some 2, some 50⟩ "rotterdam" 3
    ⟨fun v hv => by simp at hv; omega, fun v hv => by simp at hv; omega,
     fun v hv => by simp at hv; omega, fun v hv => by simp at hv; omega⟩

/-! ### Fetch loop lemmas -/

theorem make_request_loop_all_fail (net : Nat → Option α) (delay maxR : Nat) :
    ∀ rem attempt, (∀ i, i < maxR → net i = none) → attempt + rem = maxR →
      make_request_loop net delay maxR attempt rem =
        (none, List.replicate (rem - 1) (delay * 2), rem) := by
  intro rem
  induction rem with
  | zero => intro attempt _ _; rfl
  | succ r ih =>
    intro attempt hfail hsum
    have hnet : net attempt = none := hfail attempt (by omega)
    unfold make_request_loop
    rw [hnet]
    dsimp only
    by_cases hlast : attempt = maxR - 1
    · have hr : r = 0 := by omega
      subst hr
      rw [if_pos hlast]
      simp
    · rw [if_neg hlast]
      rw [ih (attempt + 1) hfail (by omega)]
      have hr : r ≠ 0 := by omega
      obtain ⟨r', rfl⟩ : ∃ r', r = r' + 1 := ⟨r - 1, by omega⟩
      simp [List.replicate_succ]

theorem make_request_loop_success (net : Nat → Option α) (delay maxR : Nat) (pg : α) :
    ∀ k rem attempt, net (attempt + k) = some pg →
      (∀ i, attempt ≤ i → i < attempt + k → net i = none) →
      k < rem → attempt + rem = maxR →
      make_request_loop net delay maxR attempt rem =
        (some pg, List.replicate k (delay * 2) ++ [delay], k + 1) := by
  intro k
  induction k with
  | zero =>
    intro rem attempt hsucc _ hlt _
    obtain ⟨r, rfl⟩ : ∃ r, rem = r + 1 := ⟨rem - 1, by omega⟩
    have hnet : net attempt = some pg := by simpa using hsucc
    unfold make_request_loop
    rw [hnet]
    simp
  | succ kk ih =>
    intro rem attempt hsucc hfail hlt hsum
    obtain ⟨r, rfl⟩ : ∃ r, rem = r + 1 := ⟨rem - 1, by omega⟩
    have hnet : net attempt = none := hfail attempt le_rfl (by omega)
    unfold make_request_loop
    rw [hnet]
    dsimp only
    have hlast : ¬ attempt = maxR - 1 := by omega
    rw [if_neg hlast]
    rw [ih r (attempt + 1)
      (by rw [show attempt + 1 + kk = attempt + (kk + 1) from by omega]; exact hsucc)
      (fun i h1 h2 => hfail i (by omega) (by omega)) (by omega) (by omega)]
    simp [List.replicate_succ]

theorem make_request_loop_attempts_le (net : Nat → Option α) (delay maxR : Nat) :
    ∀ rem attempt, (make_request_loop net delay maxR attempt rem).2.2 ≤ rem := by
  intro rem
  induction rem with
  | zero => intro attempt; simp [make_request_loop]
  | succ r ih =>
    intro attempt
    unfold make_request_loop
    cases hnet : net attempt with
    | some pg => simp
    | none =>
      dsimp only
      by_cases hlast : attempt = maxR - 1
      · rw [if_pos hlast]
        simp
      · rw [if_neg hlast]
        have := ih (attempt + 1)
        simp
        omega

/-- C7: _make_request makes at most max_retries attempts; with every attempt
failing it returns the failure signal `none` after sleeping
`request_delay * 2` after each non-final attempt; succeeding at attempt k it
sleeps `request_delay * 2` after each of the k failures and then exactly
`request_delay` once before returning the page; and on a `none` fetch result
the page walker stops, returning the listings accumulated so far. -/
theorem C7_retry_and_halt :
    (∀ (net : Nat → Option SoupPage) (delay maxR : Nat),
      (∀ i, i < maxR → net i = none) →
      make_request net delay maxR = (none, List.replicate (maxR - 1) (delay * 2), maxR)) ∧
    (∀ (net : Nat → Option SoupPage) (delay maxR k : Nat) (pg : SoupPage),
      k < maxR → net k = some pg → (∀ i, i < k → net i = none) →
      make_request net delay maxR =
        (some pg, List.replicate k (delay * 2) ++ [delay], k + 1)) ∧
    (∀ (net : Nat → Option SoupPage) (delay maxR : Nat),
      (make_request net delay maxR).2.2 ≤ maxR) ∧
    (∀ (now : Int) (fetch : Nat → Option SoupPage) (r page : Nat) (acc : List Listing),
      fetch page = none → scrape_city_go now fetch (r + 1) page acc = acc) := by
  refine ⟨?_, ?_, ?_, ?_⟩
  · intro net delay maxR hfail
    exact make_request_loop_all_fail net delay maxR maxR 0 hfail (by omega)
  · intro net delay maxR k pg hk hsucc hfail
    exact make_request_loop_success net delay maxR pg k maxR 0
      (by simpa using hsucc) (fun i h1 h2 => hfail i (by omega)) hk (by omega)
  · intro net delay maxR
    exact make_request_loop_attempts_le net delay maxR maxR 0
  · intro now fetch r page acc hfetch
    unfold scrape_city_go
    rw [hfetch]

/-- Sample parsed page used in the C7 witness. -/
def pg0 : SoupPage := ⟨[], false⟩

/-- Transport oracle failing every attempt. -/
def netFail : Nat → Option SoupPage := fun _ => none

/-- Transport oracle failing the first attempt and succeeding on the second. -/
def netSecond : Nat → Option SoupPage := fun i => if i = 1 then some pg0 else none

/-- C7 witness: three concrete runs of the retry loop and a halted walk. -/
theorem C7_witness :
    make_request netFail 5 3 = (none, [10, 10], 3) ∧
    make_request netSecond 5 3 = (some pg0, [10, 5], 2) ∧
    (make_request netFail 5 3).2.2 ≤ 3 ∧
    scrape_city_go 0 netFail 5 1 [baseL] = [baseL] := by
  obtain ⟨h1, h2, h3, h4⟩ := C7_retry_and_halt
  refine ⟨?_, ?_, h3 netFail 5 3, h4 0 netFail 4 1 [baseL] rfl⟩
  · have := h1 netFail 5 3 (fun i _ => rfl)
    simpa using this
  · have := h2 netSecond 5 3 1 pg0 (by omega) (by rfl) ?_
    · simpa using this
    · intro i hi
      interval_cases i
      rfl

/-- C8: for a fragment with a valid title link (anchor present and carrying
an href) whose price text yields no currency-prefixed numeric token — in
particular when the price element is absent, making the text the sentinel
"Unknown" — extraction completes without raising (the body itself returns
`.ok`) and the record has `price = none`, never `some 0`. -/
theorem C8_extract_price_null (now : Int) (f : Fragment) (tl : TitleLink) (href : String)
    (htl : f.title_link = some tl) (hhref : tl.href = some href)
    (hnotok : findPriceToken (priceTextOf f).toList = none) :
    ∃ l, extract_listing_data_body now f = .ok (some l) ∧
      extract_listing_data now f = some l ∧
      l.price = none ∧ l.price ≠ some 0 := by
  have hpp : priceParse (priceTextOf f) = .ok none := by
    unfold priceParse
    rw [hnotok]
  unfold extract_listing_data extract_listing_data_body
  rw [htl]
  dsimp only
  rw [hhref]
  dsimp only
  rw [hpp]
  dsimp only
  exact ⟨_, rfl, rfl, rfl, by intro hx; cases hx⟩

/-- Fragment for the C8 witness: valid title link, no price element. -/
def frag0 : Fragment :=
  ⟨some ⟨some "/apartment-for-rent/amsterdam-abc", "Nice flat"⟩, none, [], [], none, none⟩

/-- C8 witness: extraction of `frag0` yields a record with a null price. -/
theorem C8_witness :
    ∃ l, extract_listing_data_body 7 frag0 = .ok (some l) ∧
      extract_listing_data 7 frag0 = some l ∧
      l.price = none ∧ l.price ≠ some 0 :=
  C8_extract_price_null 7 frag0 ⟨some "/apartment-for-rent/amsterdam-abc", "Nice flat"⟩
    "/apartment-for-rent/amsterdam-abc" (by rfl) (by rfl) (by rfl)

end Pararius
